import Mathlib

/-!
Verification of the geometric transform and coordinate-frame subsystem
described by the Mitsuba tutorial notebooks: orthonormal `Frame3f` values
with local/world conversion, and homogeneous `Transform3f` / `Transform4f`
values (a matrix paired with its cached inverse-transpose) with named
constructors, composition, and application to vectors, points and normals.

The numeric scalar type is `ℚ`: the library's floating-point arithmetic is
modelled exactly, and IEEE not-a-number entries of a singular matrix's
inverse-transpose are modelled by `Option ℚ` entries being `none`.
Trigonometric and square-root quantities (rotation angle, normalized
look-at axes, the cotangent of the half field of view) are taken as exact
rational inputs constrained by hypotheses where a theorem needs them.
-/

/-- Modelled from the spec: a three-component numeric vector, the common
representation of the library's `Vector3f`, `Point3f` and `Normal3f`. -/
structure Vector3f where
  x : ℚ
  y : ℚ
  z : ℚ
deriving DecidableEq

/-- Modelled from the spec: the euclidean dot product of two vectors. -/
def Vector3f.dot (a b : Vector3f) : ℚ :=
  a.x * b.x + a.y * b.y + a.z * b.z

/-- Componentwise negation of a vector. -/
def Vector3f.neg (a : Vector3f) : Vector3f :=
  ⟨-a.x, -a.y, -a.z⟩

/-- Modelled from the spec: a homogeneous four-component vector used when a
transform is applied to a point. -/
structure Vector4f where
  x : ℚ
  y : ℚ
  z : ℚ
  w : ℚ
deriving DecidableEq

/-- Scalar multiple of a homogeneous vector. -/
def Vector4f.smul (c : ℚ) (v : Vector4f) : Vector4f :=
  ⟨c * v.x, c * v.y, c * v.z, c * v.w⟩

/-- Lift a point to homogeneous coordinates with unit homogeneous
coordinate. -/
def homogPoint (p : Vector3f) : Vector4f :=
  ⟨p.x, p.y, p.z, 1⟩

/-- Modelled from the spec: the perspective divide, dividing the spatial
components of a homogeneous vector by its homogeneous coordinate.  Over `ℚ`
division by zero yields `0`, the junk-value counterpart of the library's
silent NaN/Inf propagation. -/
def dehomog (v : Vector4f) : Vector3f :=
  ⟨v.x / v.w, v.y / v.w, v.z / v.w⟩

/-- Modelled from the spec: a 3×3 matrix with entries in `α` (entries are
`ℚ` for the forward matrix and `Option ℚ` for an inverse-transpose that may
hold not-a-number sentinels). -/
structure Matrix3f (α : Type) where
  a00 : α
  a01 : α
  a02 : α
  a10 : α
  a11 : α
  a12 : α
  a20 : α
  a21 : α
  a22 : α
deriving DecidableEq

/-- Matrix product of two 3×3 rational matrices. -/
def Matrix3f.mul (A B : Matrix3f ℚ) : Matrix3f ℚ :=
  ⟨A.a00 * B.a00 + A.a01 * B.a10 + A.a02 * B.a20,
   A.a00 * B.a01 + A.a01 * B.a11 + A.a02 * B.a21,
   A.a00 * B.a02 + A.a01 * B.a12 + A.a02 * B.a22,
   A.a10 * B.a00 + A.a11 * B.a10 + A.a12 * B.a20,
   A.a10 * B.a01 + A.a11 * B.a11 + A.a12 * B.a21,
   A.a10 * B.a02 + A.a11 * B.a12 + A.a12 * B.a22,
   A.a20 * B.a00 + A.a21 * B.a10 + A.a22 * B.a20,
   A.a20 * B.a01 + A.a21 * B.a11 + A.a22 * B.a21,
   A.a20 * B.a02 + A.a21 * B.a12 + A.a22 * B.a22⟩

/-- Transpose of a 3×3 matrix. -/
def Matrix3f.transpose (A : Matrix3f α) : Matrix3f α :=
  ⟨A.a00, A.a10, A.a20, A.a01, A.a11, A.a21, A.a02, A.a12, A.a22⟩

/-- The 3×3 identity matrix. -/
def Matrix3f.id3 : Matrix3f ℚ :=
  ⟨1, 0, 0, 0, 1, 0, 0, 0, 1⟩

/-- Matrix-vector product of a 3×3 matrix with a vector. -/
def Matrix3f.mulVec (A : Matrix3f ℚ) (v : Vector3f) : Vector3f :=
  ⟨A.a00 * v.x + A.a01 * v.y + A.a02 * v.z,
   A.a10 * v.x + A.a11 * v.y + A.a12 * v.z,
   A.a20 * v.x + A.a21 * v.y + A.a22 * v.z⟩

/-- Determinant of a 3×3 matrix. -/
def Matrix3f.det (A : Matrix3f ℚ) : ℚ :=
  A.a00 * (A.a11 * A.a22 - A.a12 * A.a21)
    - A.a01 * (A.a10 * A.a22 - A.a12 * A.a20)
    + A.a02 * (A.a10 * A.a21 - A.a11 * A.a20)

/-- Adjugate (transposed cofactor matrix) of a 3×3 matrix. -/
def Matrix3f.adj (A : Matrix3f ℚ) : Matrix3f ℚ :=
  ⟨A.a11 * A.a22 - A.a12 * A.a21,
   A.a02 * A.a21 - A.a01 * A.a22,
   A.a01 * A.a12 - A.a02 * A.a11,
   A.a12 * A.a20 - A.a10 * A.a22,
   A.a00 * A.a22 - A.a02 * A.a20,
   A.a02 * A.a10 - A.a00 * A.a12,
   A.a10 * A.a21 - A.a11 * A.a20,
   A.a01 * A.a20 - A.a00 * A.a21,
   A.a00 * A.a11 - A.a01 * A.a10⟩

/-- Scalar multiple of a 3×3 matrix. -/
def Matrix3f.smul (c : ℚ) (A : Matrix3f ℚ) : Matrix3f ℚ :=
  ⟨c * A.a00, c * A.a01, c * A.a02,
   c * A.a10, c * A.a11, c * A.a12,
   c * A.a20, c * A.a21, c * A.a22⟩

/-- Modelled from the spec: the matrix inverse used when a `Transform3f` is
built from an explicit matrix, computed as the adjugate divided by the
determinant; a singular input yields a junk matrix (the library produces
NaNs there, flagged separately by `Transform3f.fromMatrix`). -/
def Matrix3f.inv (A : Matrix3f ℚ) : Matrix3f ℚ :=
  Matrix3f.smul (1 / A.det) A.adj

/-- Map a function over every entry of a 3×3 matrix. -/
def Matrix3f.map (f : α → β) (A : Matrix3f α) : Matrix3f β :=
  ⟨f A.a00, f A.a01, f A.a02, f A.a10, f A.a11, f A.a12, f A.a20, f A.a21, f A.a22⟩

/-- Modelled from the spec: the all-not-a-number 3×3 matrix stored as the
inverse-transpose of a Transform built from a singular matrix. -/
def nanMatrix3 : Matrix3f (Option ℚ) :=
  ⟨none, none, none, none, none, none, none, none, none⟩

/-- Modelled from the spec: a 4×4 rational matrix, the representation of
`Transform4f` and its inverse-transpose. -/
structure Matrix4f where
  a00 : ℚ
  a01 : ℚ
  a02 : ℚ
  a03 : ℚ
  a10 : ℚ
  a11 : ℚ
  a12 : ℚ
  a13 : ℚ
  a20 : ℚ
  a21 : ℚ
  a22 : ℚ
  a23 : ℚ
  a30 : ℚ
  a31 : ℚ
  a32 : ℚ
  a33 : ℚ
deriving DecidableEq

/-- Matrix product of two 4×4 matrices. -/
def Matrix4f.mul (A B : Matrix4f) : Matrix4f :=
  ⟨A.a00 * B.a00 + A.a01 * B.a10 + A.a02 * B.a20 + A.a03 * B.a30,
   A.a00 * B.a01 + A.a01 * B.a11 + A.a02 * B.a21 + A.a03 * B.a31,
   A.a00 * B.a02 + A.a01 * B.a12 + A.a02 * B.a22 + A.a03 * B.a32,
   A.a00 * B.a03 + A.a01 * B.a13 + A.a02 * B.a23 + A.a03 * B.a33,
   A.a10 * B.a00 + A.a11 * B.a10 + A.a12 * B.a20 + A.a13 * B.a30,
   A.a10 * B.a01 + A.a11 * B.a11 + A.a12 * B.a21 + A.a13 * B.a31,
   A.a10 * B.a02 + A.a11 * B.a12 + A.a12 * B.a22 + A.a13 * B.a32,
   A.a10 * B.a03 + A.a11 * B.a13 + A.a12 * B.a23 + A.a13 * B.a33,
   A.a20 * B.a00 + A.a21 * B.a10 + A.a22 * B.a20 + A.a23 * B.a30,
   A.a20 * B.a01 + A.a21 * B.a11 + A.a22 * B.a21 + A.a23 * B.a31,
   A.a20 * B.a02 + A.a21 * B.a12 + A.a22 * B.a22 + A.a23 * B.a32,
   A.a20 * B.a03 + A.a21 * B.a13 + A.a22 * B.a23 + A.a23 * B.a33,
   A.a30 * B.a00 + A.a31 * B.a10 + A.a32 * B.a20 + A.a33 * B.a30,
   A.a30 * B.a01 + A.a31 * B.a11 + A.a32 * B.a21 + A.a33 * B.a31,
   A.a30 * B.a02 + A.a31 * B.a12 + A.a32 * B.a22 + A.a33 * B.a32,
   A.a30 * B.a03 + A.a31 * B.a13 + A.a32 * B.a23 + A.a33 * B.a33⟩

/-- Transpose of a 4×4 matrix. -/
def Matrix4f.transpose (A : Matrix4f) : Matrix4f :=
  ⟨A.a00, A.a10, A.a20, A.a30,
   A.a01, A.a11, A.a21, A.a31,
   A.a02, A.a12, A.a22, A.a32,
   A.a03, A.a13, A.a23, A.a33⟩

/-- The 4×4 identity matrix. -/
def Matrix4f.id4 : Matrix4f :=
  ⟨1, 0, 0, 0, 0, 1, 0, 0, 0, 0, 1, 0, 0, 0, 0, 1⟩

/-- Product of the upper-left 3×3 submatrix with a vector: how a transform
acts on a `Vector3f`, ignoring the homogeneous part. -/
def Matrix4f.mulVector (A : Matrix4f) (v : Vector3f) : Vector3f :=
  ⟨A.a00 * v.x + A.a01 * v.y + A.a02 * v.z,
   A.a10 * v.x + A.a11 * v.y + A.a12 * v.z,
   A.a20 * v.x + A.a21 * v.y + A.a22 * v.z⟩

/-- Product of a 4×4 matrix with a homogeneous vector. -/
def Matrix4f.mulVec4 (A : Matrix4f) (v : Vector4f) : Vector4f :=
  ⟨A.a00 * v.x + A.a01 * v.y + A.a02 * v.z + A.a03 * v.w,
   A.a10 * v.x + A.a11 * v.y + A.a12 * v.z + A.a13 * v.w,
   A.a20 * v.x + A.a21 * v.y + A.a22 * v.z + A.a23 * v.w,
   A.a30 * v.x + A.a31 * v.y + A.a32 * v.z + A.a33 * v.w⟩

/-- Embed a 3×3 matrix as the linear part of a 4×4 homogeneous matrix. -/
def Matrix3f.homog (A : Matrix3f ℚ) : Matrix4f :=
  ⟨A.a00, A.a01, A.a02, 0,
   A.a10, A.a11, A.a12, 0,
   A.a20, A.a21, A.a22, 0,
   0, 0, 0, 1⟩

/-- Modelled from the spec: an orthonormal coordinate frame holding the
tangent `s`, bitangent `t` and normal `n`; the three-vector constructor
stores the caller-supplied vectors unchecked. -/
structure Frame3f where
  s : Vector3f
  t : Vector3f
  n : Vector3f
deriving DecidableEq

/-- Modelled from the spec: `to_local` projects a world vector onto the
frame's basis, returning `(v·s, v·t, v·n)`. -/
def Frame3f.to_local (f : Frame3f) (v : Vector3f) : Vector3f :=
  ⟨v.dot f.s, v.dot f.t, v.dot f.n⟩

/-- Modelled from the spec: `to_world` returns `v.x·s + v.y·t + v.z·n`. -/
def Frame3f.to_world (f : Frame3f) (v : Vector3f) : Vector3f :=
  ⟨v.x * f.s.x + v.y * f.t.x + v.z * f.n.x,
   v.x * f.s.y + v.y * f.t.y + v.z * f.n.y,
   v.x * f.s.z + v.y * f.t.z + v.z * f.n.z⟩

/-- Sign of a rational, with `sign 0 = 1`: the rational counterpart of
`copysign(1, z)` applied to a non-negative zero. -/
def ratSign (q : ℚ) : ℚ :=
  if q < 0 then -1 else 1

/-- Multiply `v` by the sign of `q` (the branchless `mulsign` of the
library, with a non-negative zero treated as positive). -/
def mulSign (v q : ℚ) : ℚ :=
  if q < 0 then -v else v

/-- Modelled from the spec: the deterministic, numerically stable
complementary-basis routine (`coordinate_system`) deriving a tangent and
bitangent from a single normal; the branchless formulation whose recorded
output for the normal `[0, 1, 0]` is `s = [1, -0, -0]`, `t = [-0, 0, -1]`
(negative floating-point zeros are modelled as `0` over `ℚ`). -/
def coordinate_system (n : Vector3f) : Vector3f × Vector3f :=
  let sg := ratSign n.z
  let a := -1 / (sg + n.z)
  let b := n.x * n.y * a
  (⟨mulSign (n.x * n.x * a) n.z + 1, mulSign b n.z, mulSign (-n.x) n.z⟩,
   ⟨b, sg + n.y * n.y * a, -n.y⟩)

/-- Modelled from the spec: the single-vector `Frame3f` constructor, deriving
the other two basis vectors with `coordinate_system`. -/
def Frame3f.fromNormal (n : Vector3f) : Frame3f :=
  ⟨(coordinate_system n).1, (coordinate_system n).2, n⟩

/-- Modelled from the spec: a homogeneous 4×4 transform holding the forward
matrix together with its cached inverse-transpose. -/
structure Transform4f where
  matrix : Matrix4f
  inverse_transpose : Matrix4f
deriving DecidableEq

/-- Modelled from the spec: the default constructor, the identity
transform. -/
def Transform4f.identity : Transform4f :=
  ⟨Matrix4f.id4, Matrix4f.id4⟩

/-- Modelled from the spec: the translation transform; `delta` fills the
last matrix column and `-delta` the last row of the inverse-transpose,
matching the recorded output for `translate([10, 20, 30])`. -/
def Transform4f.translate (d : Vector3f) : Transform4f :=
  ⟨⟨1, 0, 0, d.x, 0, 1, 0, d.y, 0, 0, 1, d.z, 0, 0, 0, 1⟩,
   ⟨1, 0, 0, 0, 0, 1, 0, 0, 0, 0, 1, 0, -d.x, -d.y, -d.z, 1⟩⟩

/-- Modelled from the spec: the diagonal scaling transform whose
inverse-transpose holds the componentwise reciprocals, matching the
recorded output for `scale([10, 20, 30])`. -/
def Transform4f.scale (k : Vector3f) : Transform4f :=
  ⟨⟨k.x, 0, 0, 0, 0, k.y, 0, 0, 0, 0, k.z, 0, 0, 0, 0, 1⟩,
   ⟨1 / k.x, 0, 0, 0, 0, 1 / k.y, 0, 0, 0, 0, 1 / k.z, 0, 0, 0, 0, 1⟩⟩

/-- Modelled from the spec: Rodrigues rotation about `axis` with the cosine
and sine of the angle passed as exact rationals (the library converts the
angle from degrees and evaluates the trigonometric functions in floating
point); for a pure rotation the inverse-transpose equals the matrix. -/
def rotationMatrix3 (axis : Vector3f) (c s : ℚ) : Matrix3f ℚ :=
  ⟨c + (1 - c) * axis.x * axis.x,
   (1 - c) * axis.x * axis.y - s * axis.z,
   (1 - c) * axis.x * axis.z + s * axis.y,
   (1 - c) * axis.x * axis.y + s * axis.z,
   c + (1 - c) * axis.y * axis.y,
   (1 - c) * axis.y * axis.z - s * axis.x,
   (1 - c) * axis.x * axis.z - s * axis.y,
   (1 - c) * axis.y * axis.z + s * axis.x,
   c + (1 - c) * axis.z * axis.z⟩

/-- Modelled from the spec: the rotation transform; both stored matrices
are the homogeneous Rodrigues matrix, since rotation matrices are
orthogonal. -/
def Transform4f.rotate (axis : Vector3f) (c s : ℚ) : Transform4f :=
  ⟨(rotationMatrix3 axis c s).homog, (rotationMatrix3 axis c s).homog⟩

/-- Modelled from the spec: the camera-to-world look-at transform.  The
library normalizes `dir = normalize(target - origin)`,
`left = normalize(cross(up, dir))` and `newUp = cross(dir, left)`; square
roots are not rational, so the already-orthonormalized axes are taken as
inputs here.  The matrix holds `left`, `newUp`, `dir` and `origin` as its
columns and the inverse-transpose holds the same linear part with the row
`-(left·origin, newUp·origin, dir·origin)` at the bottom, matching the
recorded output for `look_at(origin=[0,0,2], target=[0,0,0], up=[0,1,0])`. -/
def Transform4f.look_at (origin lft upv dir : Vector3f) : Transform4f :=
  ⟨⟨lft.x, upv.x, dir.x, origin.x,
    lft.y, upv.y, dir.y, origin.y,
    lft.z, upv.z, dir.z, origin.z,
    0, 0, 0, 1⟩,
   ⟨lft.x, upv.x, dir.x, 0,
    lft.y, upv.y, dir.y, 0,
    lft.z, upv.z, dir.z, 0,
    -(lft.dot origin), -(upv.dot origin), -(dir.dot origin), 1⟩⟩

/-- Modelled from the spec: the transform associated with a frame.  The
spec's narrative calls it the matrix representation of `frame.to_local`,
but the recorded notebook output — the only ground truth for this operation
in the repository — shows the frame vectors stored as the matrix columns
(the `to_world` direction for an orthonormal frame) and the
inverse-transpose set to the very same matrix; this definition follows the
recorded behavior. -/
def Transform4f.to_frame (f : Frame3f) : Transform4f :=
  ⟨⟨f.s.x, f.t.x, f.n.x, 0,
    f.s.y, f.t.y, f.n.y, 0,
    f.s.z, f.t.z, f.n.z, 0,
    0, 0, 0, 1⟩,
   ⟨f.s.x, f.t.x, f.n.x, 0,
    f.s.y, f.t.y, f.n.y, 0,
    f.s.z, f.t.z, f.n.z, 0,
    0, 0, 0, 1⟩⟩

/-- Modelled from the spec: transform composition (the `@` operator on two
transforms): both the matrices and the inverse-transposes multiply. -/
def Transform4f.compose (T U : Transform4f) : Transform4f :=
  ⟨T.matrix.mul U.matrix, T.inverse_transpose.mul U.inverse_transpose⟩

/-- Modelled from the spec: the fluent builder method `t.translate(d)`,
which composes `t` with a translation on the right, as the recorded output
of the chaining example shows. -/
def Transform4f.chainTranslate (T : Transform4f) (d : Vector3f) : Transform4f :=
  T.compose (Transform4f.translate d)

/-- Modelled from the spec: the fluent builder method `t.scale(k)`, which
composes `t` with a scaling on the right. -/
def Transform4f.chainScale (T : Transform4f) (k : Vector3f) : Transform4f :=
  T.compose (Transform4f.scale k)

/-- Modelled from the spec: applying a transform to a `Vector3f` multiplies
by the 3×3 linear part only, ignoring translation. -/
def Transform4f.applyVector (T : Transform4f) (v : Vector3f) : Vector3f :=
  T.matrix.mulVector v

/-- Modelled from the spec: applying a transform to a `Point3f` is the full
homogeneous multiplication followed by the perspective divide. -/
def Transform4f.applyPoint (T : Transform4f) (p : Vector3f) : Vector3f :=
  dehomog (T.matrix.mulVec4 (homogPoint p))

/-- Modelled from the spec: applying a transform to a `Normal3f` multiplies
by the 3×3 part of the inverse-transpose. -/
def Transform4f.applyNormal (T : Transform4f) (nrm : Vector3f) : Vector3f :=
  T.inverse_transpose.mulVector nrm

/-- Modelled from the spec: the projective perspective transform (the
`ProjectiveTransform4f.perspective` constructor).  The cotangent of half
the field of view is passed as an exact rational (it equals `1` for the
90-degree field of view used in the source); the third row maps `z` from
`[near, far]` to `[0, far]` before the divide by `w = z`, matching the
recorded matrix for `perspective(fov=90, near=0.1, far=10)`. -/
def Transform4f.perspective (cotHalfFov near far : ℚ) : Transform4f :=
  ⟨⟨cotHalfFov, 0, 0, 0,
    0, cotHalfFov, 0, 0,
    0, 0, far * (1 / (far - near)), -(near * far * (1 / (far - near))),
    0, 0, 1, 0⟩,
   ⟨1 / cotHalfFov, 0, 0, 0,
    0, 1 / cotHalfFov, 0, 0,
    0, 0, 0, -((far - near) / (near * far)),
    0, 0, 1, 1 / near⟩⟩

/-- Modelled from the spec: a 3×3 homogeneous transform; the
inverse-transpose entries are `Option ℚ`, with `none` standing for the
not-a-number sentinel stored when the source matrix is singular. -/
structure Transform3f where
  matrix : Matrix3f ℚ
  inverse_transpose : Matrix3f (Option ℚ)
deriving DecidableEq

/-- Modelled from the spec: building a `Transform3f` from an explicit
matrix stores the matrix exactly as given and eagerly computes the
inverse-transpose, filling it entirely with not-a-number sentinels when the
matrix is singular instead of failing. -/
def Transform3f.fromMatrix (m : Matrix3f ℚ) : Transform3f :=
  ⟨m, if m.det = 0 then nanMatrix3 else (m.inv.transpose).map some⟩

/-- Modelled from the spec: the row-vector broadcast constructor
`Transform3f([a, b, c])`, which repeats the given vector across the matrix
columns, so the entry in row `i` and column `j` is the vector's component
`i`. -/
def Transform3f.fromRow (v : Vector3f) : Transform3f :=
  Transform3f.fromMatrix ⟨v.x, v.x, v.x, v.y, v.y, v.y, v.z, v.z, v.z⟩

/-- Modelled from the spec: the data-model invariant that the stored
`inverse_transpose` is the transpose of the inverse of `matrix`, phrased as
the transpose of `inverse_transpose` being a two-sided inverse of `matrix`
(these are equivalent for an invertible matrix, see the uniqueness part of
the invariant theorem). -/
def Transform4f.wellFormed (T : Transform4f) : Prop :=
  T.matrix.mul T.inverse_transpose.transpose = Matrix4f.id4
    ∧ T.inverse_transpose.transpose.mul T.matrix = Matrix4f.id4

/-- The 3×3 matrix whose columns are the three given vectors. -/
def colMat (a b c : Vector3f) : Matrix3f ℚ :=
  ⟨a.x, b.x, c.x, a.y, b.y, c.y, a.z, b.z, c.z⟩

/-- The 3×3 matrix whose rows are the three given vectors. -/
def rowMat (a b c : Vector3f) : Matrix3f ℚ :=
  ⟨a.x, a.y, a.z, b.x, b.y, b.z, c.x, c.y, c.z⟩

/-- The homogeneous 4×4 translation matrix by `d`. -/
def transMat (d : Vector3f) : Matrix4f :=
  ⟨1, 0, 0, d.x, 0, 1, 0, d.y, 0, 0, 1, d.z, 0, 0, 0, 1⟩

theorem Matrix3f.mul_assoc3 (A B C : Matrix3f ℚ) :
    (A.mul B).mul C = A.mul (B.mul C) := by
  cases A; cases B; cases C
  simp only [Matrix3f.mul, Matrix3f.mk.injEq]
  repeat' apply And.intro
  all_goals ring

theorem Matrix3f.id_mul3 (A : Matrix3f ℚ) : Matrix3f.id3.mul A = A := by
  cases A
  simp only [Matrix3f.mul, Matrix3f.id3, Matrix3f.mk.injEq]
  repeat' apply And.intro
  all_goals ring

theorem Matrix3f.mul_id3 (A : Matrix3f ℚ) : A.mul Matrix3f.id3 = A := by
  cases A
  simp only [Matrix3f.mul, Matrix3f.id3, Matrix3f.mk.injEq]
  repeat' apply And.intro
  all_goals ring

theorem Matrix3f.smul_mul3 (c : ℚ) (A B : Matrix3f ℚ) :
    (Matrix3f.smul c A).mul B = Matrix3f.smul c (A.mul B) := by
  cases A; cases B
  simp only [Matrix3f.mul, Matrix3f.smul, Matrix3f.mk.injEq]
  repeat' apply And.intro
  all_goals ring

theorem Matrix3f.mul_smul3 (c : ℚ) (A B : Matrix3f ℚ) :
    A.mul (Matrix3f.smul c B) = Matrix3f.smul c (A.mul B) := by
  cases A; cases B
  simp only [Matrix3f.mul, Matrix3f.smul, Matrix3f.mk.injEq]
  repeat' apply And.intro
  all_goals ring

theorem Matrix3f.smul_smul3 (c d : ℚ) (A : Matrix3f ℚ) :
    Matrix3f.smul c (Matrix3f.smul d A) = Matrix3f.smul (c * d) A := by
  cases A
  simp only [Matrix3f.smul, Matrix3f.mk.injEq]
  repeat' apply And.intro
  all_goals ring

theorem Matrix3f.one_smul3 (A : Matrix3f ℚ) : Matrix3f.smul 1 A = A := by
  cases A
  simp only [Matrix3f.smul, Matrix3f.mk.injEq]
  repeat' apply And.intro
  all_goals ring

theorem Matrix3f.adj_mul3 (A : Matrix3f ℚ) :
    A.adj.mul A = Matrix3f.smul A.det Matrix3f.id3 := by
  cases A
  simp only [Matrix3f.mul, Matrix3f.adj, Matrix3f.det, Matrix3f.smul, Matrix3f.id3,
    Matrix3f.mk.injEq]
  repeat' apply And.intro
  all_goals ring

theorem Matrix3f.mul_adj3 (A : Matrix3f ℚ) :
    A.mul A.adj = Matrix3f.smul A.det Matrix3f.id3 := by
  cases A
  simp only [Matrix3f.mul, Matrix3f.adj, Matrix3f.det, Matrix3f.smul, Matrix3f.id3,
    Matrix3f.mk.injEq]
  repeat' apply And.intro
  all_goals ring

theorem Matrix3f.det_mul3 (A B : Matrix3f ℚ) :
    (A.mul B).det = A.det * B.det := by
  cases A; cases B
  simp only [Matrix3f.mul, Matrix3f.det]
  ring

theorem Matrix3f.mul_eq_one_comm3 {A B : Matrix3f ℚ} (h : A.mul B = Matrix3f.id3) :
    B.mul A = Matrix3f.id3 := by
  have hdet : A.det * B.det = 1 := by
    have := congrArg Matrix3f.det h
    rw [Matrix3f.det_mul3] at this
    simpa [Matrix3f.det, Matrix3f.id3] using this
  have hA : A.det ≠ 0 := by
    intro h0
    rw [h0, zero_mul] at hdet
    exact zero_ne_one hdet
  have key : Matrix3f.smul A.det B = A.adj := by
    have h1 : (A.adj.mul A).mul B = A.adj := by
      rw [Matrix3f.mul_assoc3, h, Matrix3f.mul_id3]
    rw [Matrix3f.adj_mul3, Matrix3f.smul_mul3, Matrix3f.id_mul3] at h1
    exact h1
  have hB : B = Matrix3f.smul (1 / A.det) A.adj := by
    rw [← key, Matrix3f.smul_smul3, one_div_mul_cancel hA, Matrix3f.one_smul3]
  rw [hB, Matrix3f.smul_mul3, Matrix3f.adj_mul3, Matrix3f.smul_smul3,
    one_div_mul_cancel hA, Matrix3f.one_smul3]

theorem Matrix3f.mulVec_mul3 (A B : Matrix3f ℚ) (v : Vector3f) :
    (A.mul B).mulVec v = A.mulVec (B.mulVec v) := by
  cases A; cases B; cases v
  simp only [Matrix3f.mul, Matrix3f.mulVec, Vector3f.mk.injEq]
  repeat' apply And.intro
  all_goals ring

theorem Matrix3f.id3_mulVec (v : Vector3f) : Matrix3f.id3.mulVec v = v := by
  cases v
  simp only [Matrix3f.mulVec, Matrix3f.id3, Vector3f.mk.injEq]
  repeat' apply And.intro
  all_goals ring

theorem Matrix4f.mul_assoc4 (A B C : Matrix4f) :
    (A.mul B).mul C = A.mul (B.mul C) := by
  cases A; cases B; cases C
  simp only [Matrix4f.mul, Matrix4f.mk.injEq]
  repeat' apply And.intro
  all_goals ring

theorem Matrix4f.id_mul4 (A : Matrix4f) : Matrix4f.id4.mul A = A := by
  cases A
  simp only [Matrix4f.mul, Matrix4f.id4, Matrix4f.mk.injEq]
  repeat' apply And.intro
  all_goals ring

theorem Matrix4f.mul_id4 (A : Matrix4f) : A.mul Matrix4f.id4 = A := by
  cases A
  simp only [Matrix4f.mul, Matrix4f.id4, Matrix4f.mk.injEq]
  repeat' apply And.intro
  all_goals ring

theorem Matrix4f.transpose_mul4 (A B : Matrix4f) :
    (A.mul B).transpose = B.transpose.mul A.transpose := by
  cases A; cases B
  simp only [Matrix4f.mul, Matrix4f.transpose, Matrix4f.mk.injEq]
  repeat' apply And.intro
  all_goals ring

theorem Matrix4f.transpose_transpose4 (A : Matrix4f) :
    A.transpose.transpose = A := by
  cases A
  simp only [Matrix4f.transpose]

theorem Matrix3f.homog_mul (A B : Matrix3f ℚ) :
    A.homog.mul B.homog = (A.mul B).homog := by
  cases A; cases B
  simp only [Matrix3f.homog, Matrix3f.mul, Matrix4f.mul, Matrix4f.mk.injEq]
  repeat' apply And.intro
  all_goals ring

theorem Matrix3f.homog_transpose (A : Matrix3f ℚ) :
    A.homog.transpose = A.transpose.homog := by
  cases A
  simp only [Matrix3f.homog, Matrix3f.transpose, Matrix4f.transpose]

theorem Matrix3f.homog_id : Matrix3f.id3.homog = Matrix4f.id4 := by
  simp only [Matrix3f.homog, Matrix3f.id3, Matrix4f.id4]

theorem transMat_mul_neg (d : Vector3f) :
    (transMat d).mul (transMat d.neg) = Matrix4f.id4 := by
  cases d
  simp only [transMat, Vector3f.neg, Matrix4f.mul, Matrix4f.id4, Matrix4f.mk.injEq]
  repeat' apply And.intro
  all_goals ring

theorem transMat_neg_mul (d : Vector3f) :
    (transMat d.neg).mul (transMat d) = Matrix4f.id4 := by
  cases d
  simp only [transMat, Vector3f.neg, Matrix4f.mul, Matrix4f.id4, Matrix4f.mk.injEq]
  repeat' apply And.intro
  all_goals ring

theorem Matrix4f.mulVec4_mul (A B : Matrix4f) (v : Vector4f) :
    (A.mul B).mulVec4 v = A.mulVec4 (B.mulVec4 v) := by
  cases A; cases B; cases v
  simp only [Matrix4f.mul, Matrix4f.mulVec4, Vector4f.mk.injEq]
  repeat' apply And.intro
  all_goals ring

theorem Matrix4f.mulVec4_smul (A : Matrix4f) (c : ℚ) (v : Vector4f) :
    A.mulVec4 (Vector4f.smul c v) = Vector4f.smul c (A.mulVec4 v) := by
  cases A; cases v
  simp only [Matrix4f.mulVec4, Vector4f.smul, Vector4f.mk.injEq]
  repeat' apply And.intro
  all_goals ring

theorem homog_dehomog (v : Vector4f) (h : v.w ≠ 0) :
    homogPoint (dehomog v) = Vector4f.smul (1 / v.w) v := by
  cases v
  simp only [homogPoint, dehomog, Vector4f.smul, Vector4f.mk.injEq] at h ⊢
  refine ⟨by ring, by ring, by ring, ?_⟩
  field_simp

theorem dehomog_smul (c : ℚ) (v : Vector4f) (hc : c ≠ 0) :
    dehomog (Vector4f.smul c v) = dehomog v := by
  cases v
  simp only [dehomog, Vector4f.smul, Vector3f.mk.injEq]
  exact ⟨mul_div_mul_left _ _ hc, mul_div_mul_left _ _ hc, mul_div_mul_left _ _ hc⟩

theorem wf_translate (d : Vector3f) : (Transform4f.translate d).wellFormed := by
  cases d
  constructor <;>
    · simp only [Transform4f.translate, Transform4f.wellFormed, Matrix4f.mul,
        Matrix4f.transpose, Matrix4f.id4, Matrix4f.mk.injEq]
      repeat' apply And.intro
      all_goals ring

theorem wf_scale (k : Vector3f) (hx : k.x ≠ 0) (hy : k.y ≠ 0) (hz : k.z ≠ 0) :
    (Transform4f.scale k).wellFormed := by
  cases k
  simp only [Transform4f.scale, Transform4f.wellFormed, Matrix4f.mul,
    Matrix4f.transpose, Matrix4f.id4, Matrix4f.mk.injEq] at hx hy hz ⊢
  constructor <;>
    · repeat' apply And.intro
      all_goals field_simp

theorem rotation_mul_transpose (axis : Vector3f) (c s : ℚ)
    (ha : axis.dot axis = 1) (ht : c * c + s * s = 1) :
    (rotationMatrix3 axis c s).mul (rotationMatrix3 axis c s).transpose = Matrix3f.id3 := by
  obtain ⟨ax, ay, az⟩ := axis
  simp only [Vector3f.dot] at ha
  simp only [rotationMatrix3, Matrix3f.mul, Matrix3f.transpose, Matrix3f.id3,
    Matrix3f.mk.injEq]
  refine ⟨?_, ?_, ?_, ?_, ?_, ?_, ?_, ?_, ?_⟩
  · linear_combination (1 - ax * ax) * ht + ((1 - c) * (1 - c) * ax * ax + s * s) * ha
  · linear_combination (-(ax * ay)) * ht + (1 - c) * (1 - c) * ax * ay * ha
  · linear_combination (-(ax * az)) * ht + (1 - c) * (1 - c) * ax * az * ha
  · linear_combination (-(ax * ay)) * ht + (1 - c) * (1 - c) * ax * ay * ha
  · linear_combination (1 - ay * ay) * ht + ((1 - c) * (1 - c) * ay * ay + s * s) * ha
  · linear_combination (-(ay * az)) * ht + (1 - c) * (1 - c) * ay * az * ha
  · linear_combination (-(ax * az)) * ht + (1 - c) * (1 - c) * ax * az * ha
  · linear_combination (-(ay * az)) * ht + (1 - c) * (1 - c) * ay * az * ha
  · linear_combination (1 - az * az) * ht + ((1 - c) * (1 - c) * az * az + s * s) * ha

theorem wf_rotate (axis : Vector3f) (c s : ℚ)
    (ha : axis.dot axis = 1) (ht : c * c + s * s = 1) :
    (Transform4f.rotate axis c s).wellFormed := by
  have h1 := rotation_mul_transpose axis c s ha ht
  have h2 := Matrix3f.mul_eq_one_comm3 h1
  constructor
  · show (rotationMatrix3 axis c s).homog.mul (rotationMatrix3 axis c s).homog.transpose = _
    rw [Matrix3f.homog_transpose, Matrix3f.homog_mul, h1, Matrix3f.homog_id]
  · show ((rotationMatrix3 axis c s).homog.transpose).mul (rotationMatrix3 axis c s).homog = _
    rw [Matrix3f.homog_transpose, Matrix3f.homog_mul, h2, Matrix3f.homog_id]

theorem colMat_transpose_mul (l u d : Vector3f)
    (hl : l.dot l = 1) (hu : u.dot u = 1) (hd : d.dot d = 1)
    (hlu : l.dot u = 0) (hld : l.dot d = 0) (hud : u.dot d = 0) :
    (colMat l u d).transpose.mul (colMat l u d) = Matrix3f.id3 := by
  obtain ⟨lx, ly, lz⟩ := l
  obtain ⟨ux, uy, uz⟩ := u
  obtain ⟨dx, dy, dz⟩ := d
  simp only [Vector3f.dot] at hl hu hd hlu hld hud
  simp only [colMat, Matrix3f.mul, Matrix3f.transpose, Matrix3f.id3, Matrix3f.mk.injEq]
  refine ⟨?_, ?_, ?_, ?_, ?_, ?_, ?_, ?_, ?_⟩
  · linear_combination hl
  · linear_combination hlu
  · linear_combination hld
  · linear_combination hlu
  · linear_combination hu
  · linear_combination hud
  · linear_combination hld
  · linear_combination hud
  · linear_combination hd

theorem look_at_matrix_decomp (origin lft upv dir : Vector3f) :
    (Transform4f.look_at origin lft upv dir).matrix
      = (transMat origin).mul ((colMat lft upv dir).homog) := by
  obtain ⟨lx, ly, lz⟩ := lft
  obtain ⟨ux, uy, uz⟩ := upv
  obtain ⟨dx, dy, dz⟩ := dir
  obtain ⟨ox, oy, oz⟩ := origin
  simp only [Transform4f.look_at, transMat, colMat, Matrix3f.homog, Matrix4f.mul,
    Matrix4f.mk.injEq]
  repeat' apply And.intro
  all_goals ring

theorem look_at_it_decomp (origin lft upv dir : Vector3f) :
    (Transform4f.look_at origin lft upv dir).inverse_transpose.transpose
      = ((colMat lft upv dir).transpose.homog).mul (transMat origin.neg) := by
  obtain ⟨lx, ly, lz⟩ := lft
  obtain ⟨ux, uy, uz⟩ := upv
  obtain ⟨dx, dy, dz⟩ := dir
  obtain ⟨ox, oy, oz⟩ := origin
  simp only [Transform4f.look_at, transMat, colMat, Vector3f.neg, Vector3f.dot,
    Matrix3f.homog, Matrix3f.transpose, Matrix4f.transpose, Matrix4f.mul, Matrix4f.mk.injEq]
  repeat' apply And.intro
  all_goals ring

theorem wf_look_at (origin lft upv dir : Vector3f)
    (hl : lft.dot lft = 1) (hu : upv.dot upv = 1) (hd : dir.dot dir = 1)
    (hlu : lft.dot upv = 0) (hld : lft.dot dir = 0) (hud : upv.dot dir = 0) :
    (Transform4f.look_at origin lft upv dir).wellFormed := by
  have hrow := colMat_transpose_mul lft upv dir hl hu hd hlu hld hud
  have hcol := Matrix3f.mul_eq_one_comm3 hrow
  constructor
  · rw [look_at_matrix_decomp, look_at_it_decomp, Matrix4f.mul_assoc4,
      ← Matrix4f.mul_assoc4 ((colMat lft upv dir).homog), Matrix3f.homog_mul, hcol,
      Matrix3f.homog_id, Matrix4f.id_mul4, transMat_mul_neg]
  · rw [look_at_matrix_decomp, look_at_it_decomp, Matrix4f.mul_assoc4,
      ← Matrix4f.mul_assoc4 (transMat origin.neg), transMat_neg_mul, Matrix4f.id_mul4,
      Matrix3f.homog_mul, hrow, Matrix3f.homog_id]

theorem to_frame_decomp (f : Frame3f) :
    (Transform4f.to_frame f).matrix = (colMat f.s f.t f.n).homog := rfl

theorem to_frame_it_decomp (f : Frame3f) :
    (Transform4f.to_frame f).inverse_transpose = (colMat f.s f.t f.n).homog := rfl

theorem wf_to_frame (f : Frame3f)
    (hs : f.s.dot f.s = 1) (ht : f.t.dot f.t = 1) (hn : f.n.dot f.n = 1)
    (hst : f.s.dot f.t = 0) (hsn : f.s.dot f.n = 0) (htn : f.t.dot f.n = 0) :
    (Transform4f.to_frame f).wellFormed := by
  have hrow := colMat_transpose_mul f.s f.t f.n hs ht hn hst hsn htn
  have hcol := Matrix3f.mul_eq_one_comm3 hrow
  constructor
  · rw [to_frame_decomp, to_frame_it_decomp, Matrix3f.homog_transpose,
      Matrix3f.homog_mul, hcol, Matrix3f.homog_id]
  · rw [to_frame_decomp, to_frame_it_decomp, Matrix3f.homog_transpose,
      Matrix3f.homog_mul, hrow, Matrix3f.homog_id]

theorem wf_compose (A B : Transform4f) (hA : A.wellFormed) (hB : B.wellFormed) :
    (A.compose B).wellFormed := by
  obtain ⟨hA1, hA2⟩ := hA
  obtain ⟨hB1, hB2⟩ := hB
  constructor
  · show (A.matrix.mul B.matrix).mul (A.inverse_transpose.mul B.inverse_transpose).transpose = _
    rw [Matrix4f.transpose_mul4, Matrix4f.mul_assoc4,
      ← Matrix4f.mul_assoc4 B.matrix, hB1, Matrix4f.id_mul4, hA1]
  · show (A.inverse_transpose.mul B.inverse_transpose).transpose.mul (A.matrix.mul B.matrix) = _
    rw [Matrix4f.transpose_mul4, Matrix4f.mul_assoc4,
      ← Matrix4f.mul_assoc4 A.inverse_transpose.transpose, hA2, Matrix4f.id_mul4, hB2]

theorem wf_fromMatrix (m : Matrix3f ℚ) (h : m.det ≠ 0) :
    (Transform3f.fromMatrix m).inverse_transpose = (m.inv.transpose).map some
      ∧ m.mul m.inv = Matrix3f.id3 ∧ m.inv.mul m = Matrix3f.id3 := by
  have h2 : m.mul m.inv = Matrix3f.id3 := by
    rw [Matrix3f.inv, Matrix3f.mul_smul3, Matrix3f.mul_adj3, Matrix3f.smul_smul3,
      one_div_mul_cancel h, Matrix3f.one_smul3]
  exact ⟨by simp [Transform3f.fromMatrix, h], h2, Matrix3f.mul_eq_one_comm3 h2⟩

theorem wf_unique_inverse (T : Transform4f) (N : Matrix4f) (hT : T.wellFormed)
    (_h1 : T.matrix.mul N = Matrix4f.id4) (h2 : N.mul T.matrix = Matrix4f.id4) :
    T.inverse_transpose = N.transpose := by
  have e : N = T.inverse_transpose.transpose := by
    calc N = N.mul Matrix4f.id4 := (Matrix4f.mul_id4 N).symm
    _ = N.mul (T.matrix.mul T.inverse_transpose.transpose) := by rw [hT.1]
    _ = (N.mul T.matrix).mul T.inverse_transpose.transpose := (Matrix4f.mul_assoc4 _ _ _).symm
    _ = T.inverse_transpose.transpose := by rw [h2, Matrix4f.id_mul4]
  rw [e, Matrix4f.transpose_transpose4]

theorem to_local_decomp (f : Frame3f) (v : Vector3f) :
    f.to_local v = (rowMat f.s f.t f.n).mulVec v := by
  obtain ⟨⟨sx, sy, sz⟩, ⟨tx, ty, tz⟩, ⟨nx, ny, nz⟩⟩ := f
  obtain ⟨vx, vy, vz⟩ := v
  simp only [Frame3f.to_local, Vector3f.dot, rowMat, Matrix3f.mulVec, Vector3f.mk.injEq]
  refine ⟨by ring, by ring, by ring⟩

theorem to_world_decomp (f : Frame3f) (w : Vector3f) :
    f.to_world w = (rowMat f.s f.t f.n).transpose.mulVec w := by
  obtain ⟨⟨sx, sy, sz⟩, ⟨tx, ty, tz⟩, ⟨nx, ny, nz⟩⟩ := f
  obtain ⟨wx, wy, wz⟩ := w
  simp only [Frame3f.to_world, rowMat, Matrix3f.transpose, Matrix3f.mulVec, Vector3f.mk.injEq]
  refine ⟨by ring, by ring, by ring⟩

theorem rowMat_eq_colMat_transpose (a b c : Vector3f) :
    rowMat a b c = (colMat a b c).transpose := rfl

/-- C1: for every Transform produced by translate, scale, rotate (with exact
sine/cosine of the angle and a unit axis), look_at (with orthonormalized
axes), from-matrix construction on an invertible matrix, or composition of
transforms satisfying the invariant, the stored inverse_transpose equals
the transpose of the inverse of the matrix (phrased as a two-sided inverse
together with uniqueness); to_frame requires an orthonormal frame. -/
theorem C1_inverse_transpose_invariant :
    (∀ d : Vector3f, (Transform4f.translate d).wellFormed)
    ∧ (∀ k : Vector3f, k.x ≠ 0 → k.y ≠ 0 → k.z ≠ 0 → (Transform4f.scale k).wellFormed)
    ∧ (∀ (axis : Vector3f) (c s : ℚ), axis.dot axis = 1 → c * c + s * s = 1 →
        (Transform4f.rotate axis c s).wellFormed)
    ∧ (∀ origin lft upv dir : Vector3f, lft.dot lft = 1 → upv.dot upv = 1 →
        dir.dot dir = 1 → lft.dot upv = 0 → lft.dot dir = 0 → upv.dot dir = 0 →
        (Transform4f.look_at origin lft upv dir).wellFormed)
    ∧ (∀ m : Matrix3f ℚ, m.det ≠ 0 →
        (Transform3f.fromMatrix m).inverse_transpose = (m.inv.transpose).map some
          ∧ m.mul m.inv = Matrix3f.id3 ∧ m.inv.mul m = Matrix3f.id3)
    ∧ (∀ A B : Transform4f, A.wellFormed → B.wellFormed → (A.compose B).wellFormed)
    ∧ (∀ f : Frame3f, f.s.dot f.s = 1 → f.t.dot f.t = 1 → f.n.dot f.n = 1 →
        f.s.dot f.t = 0 → f.s.dot f.n = 0 → f.t.dot f.n = 0 →
        (Transform4f.to_frame f).wellFormed)
    ∧ (∀ (T : Transform4f) (N : Matrix4f), T.wellFormed →
        T.matrix.mul N = Matrix4f.id4 → N.mul T.matrix = Matrix4f.id4 →
        T.inverse_transpose = N.transpose) :=
  ⟨wf_translate, wf_scale, wf_rotate, wf_look_at, wf_fromMatrix, wf_compose,
    wf_to_frame, wf_unique_inverse⟩

/-- C1 counterexample: the notebook's own to_frame example, the frame with
s = [0,0,1], t = [0,2,0], n = [3,0,0], yields an invertible matrix (an
explicit two-sided inverse is exhibited) whose stored inverse_transpose is
not the transpose of that inverse. -/
theorem C1_to_frame_counterexample :
    ((Transform4f.to_frame ⟨⟨0, 0, 1⟩, ⟨0, 2, 0⟩, ⟨3, 0, 0⟩⟩).matrix.mul
        ⟨0, 0, 1, 0, 0, 1/2, 0, 0, 1/3, 0, 0, 0, 0, 0, 0, 1⟩ = Matrix4f.id4
      ∧ (⟨0, 0, 1, 0, 0, 1/2, 0, 0, 1/3, 0, 0, 0, 0, 0, 0, 1⟩ : Matrix4f).mul
          (Transform4f.to_frame ⟨⟨0, 0, 1⟩, ⟨0, 2, 0⟩, ⟨3, 0, 0⟩⟩).matrix = Matrix4f.id4)
    ∧ (Transform4f.to_frame ⟨⟨0, 0, 1⟩, ⟨0, 2, 0⟩, ⟨3, 0, 0⟩⟩).inverse_transpose
        ≠ (⟨0, 0, 1, 0, 0, 1/2, 0, 0, 1/3, 0, 0, 0, 0, 0, 0, 1⟩ : Matrix4f).transpose := by
  refine ⟨⟨?_, ?_⟩, ?_⟩ <;>
    norm_num [Transform4f.to_frame, Matrix4f.mul, Matrix4f.id4, Matrix4f.transpose]

/-- C1 witness: each part of the invariant theorem instantiated at concrete
inputs drawn from the notebook examples. -/
theorem C1_witness :
    (Transform4f.translate ⟨10, 20, 30⟩).wellFormed
    ∧ (Transform4f.scale ⟨10, 20, 30⟩).wellFormed
    ∧ (Transform4f.rotate ⟨0, 1, 0⟩ 0 1).wellFormed
    ∧ (Transform4f.look_at ⟨0, 0, 2⟩ ⟨-1, 0, 0⟩ ⟨0, 1, 0⟩ ⟨0, 0, -1⟩).wellFormed
    ∧ ((Transform3f.fromMatrix ⟨2, 0, 0, 0, 3, 0, 0, 0, 4⟩).inverse_transpose
          = ((Matrix3f.inv ⟨2, 0, 0, 0, 3, 0, 0, 0, 4⟩).transpose).map some
        ∧ Matrix3f.mul ⟨2, 0, 0, 0, 3, 0, 0, 0, 4⟩
            (Matrix3f.inv ⟨2, 0, 0, 0, 3, 0, 0, 0, 4⟩) = Matrix3f.id3
        ∧ Matrix3f.mul (Matrix3f.inv ⟨2, 0, 0, 0, 3, 0, 0, 0, 4⟩)
            ⟨2, 0, 0, 0, 3, 0, 0, 0, 4⟩ = Matrix3f.id3)
    ∧ ((Transform4f.translate ⟨1, 2, 3⟩).compose (Transform4f.scale ⟨4, 5, 6⟩)).wellFormed
    ∧ (Transform4f.to_frame ⟨⟨0, 0, 1⟩, ⟨0, 1, 0⟩, ⟨1, 0, 0⟩⟩).wellFormed
    ∧ (Transform4f.translate ⟨1, 0, 0⟩).inverse_transpose
        = Matrix4f.transpose ⟨1, 0, 0, -1, 0, 1, 0, 0, 0, 0, 1, 0, 0, 0, 0, 1⟩ := by
  obtain ⟨h1, h2, h3, h4, h5, h6, h7, h8⟩ := C1_inverse_transpose_invariant
  refine ⟨h1 _, h2 _ (by norm_num) (by norm_num) (by norm_num),
    h3 _ 0 1 (by norm_num [Vector3f.dot]) (by norm_num),
    h4 _ _ _ _ (by norm_num [Vector3f.dot]) (by norm_num [Vector3f.dot])
      (by norm_num [Vector3f.dot]) (by norm_num [Vector3f.dot])
      (by norm_num [Vector3f.dot]) (by norm_num [Vector3f.dot]),
    h5 _ (by norm_num [Matrix3f.det]),
    h6 _ _ (h1 _) (h2 _ (by norm_num) (by norm_num) (by norm_num)),
    h7 _ (by norm_num [Vector3f.dot]) (by norm_num [Vector3f.dot])
      (by norm_num [Vector3f.dot]) (by norm_num [Vector3f.dot])
      (by norm_num [Vector3f.dot]) (by norm_num [Vector3f.dot]),
    h8 _ _ (h1 _)
      (by norm_num [Transform4f.translate, Matrix4f.mul, Matrix4f.id4])
      (by norm_num [Transform4f.translate, Matrix4f.mul, Matrix4f.id4])⟩

/-- C2: for every frame whose basis vectors are orthonormal (unit length
and pairwise orthogonal), and every vector v, to_world after to_local is
the identity; over ℚ the round trip is exact. -/
theorem C2_round_trip (F : Frame3f) (v : Vector3f)
    (hs : F.s.dot F.s = 1) (ht : F.t.dot F.t = 1) (hn : F.n.dot F.n = 1)
    (hst : F.s.dot F.t = 0) (hsn : F.s.dot F.n = 0) (htn : F.t.dot F.n = 0) :
    F.to_world (F.to_local v) = v := by
  have hrow : (rowMat F.s F.t F.n).mul (rowMat F.s F.t F.n).transpose = Matrix3f.id3 := by
    have h := colMat_transpose_mul F.s F.t F.n hs ht hn hst hsn htn
    rw [rowMat_eq_colMat_transpose]
    rw [Matrix3f.transpose] at h ⊢
    exact h
  have hcol := Matrix3f.mul_eq_one_comm3 hrow
  rw [to_local_decomp, to_world_decomp, ← Matrix3f.mulVec_mul3, hcol, Matrix3f.id3_mulVec]

/-- C2 counterexample: the non-orthonormal three-vector frame from the
notebook, s = [0,0,1], t = [0,2,0], n = [3,0,0], sends the vector [1,0,0]
around the local/world round trip to [9,0,0], far outside any
floating-point tolerance of the original vector. -/
theorem C2_round_trip_counterexample :
    (Frame3f.mk ⟨0, 0, 1⟩ ⟨0, 2, 0⟩ ⟨3, 0, 0⟩).to_world
        ((Frame3f.mk ⟨0, 0, 1⟩ ⟨0, 2, 0⟩ ⟨3, 0, 0⟩).to_local ⟨1, 0, 0⟩) = ⟨9, 0, 0⟩
      ∧ (⟨9, 0, 0⟩ : Vector3f) ≠ ⟨1, 0, 0⟩ := by
  constructor
  · norm_num [Frame3f.to_world, Frame3f.to_local, Vector3f.dot]
  · norm_num

/-- C2 witness: the round-trip theorem at the notebook's orthonormal
permutation frame and the vector [3,2,1]. -/
theorem C2_witness :
    (Frame3f.mk ⟨0, 0, 1⟩ ⟨0, 1, 0⟩ ⟨1, 0, 0⟩).to_world
        ((Frame3f.mk ⟨0, 0, 1⟩ ⟨0, 1, 0⟩ ⟨1, 0, 0⟩).to_local ⟨3, 2, 1⟩) = ⟨3, 2, 1⟩ :=
  C2_round_trip _ _ (by norm_num [Vector3f.dot]) (by norm_num [Vector3f.dot])
    (by norm_num [Vector3f.dot]) (by norm_num [Vector3f.dot])
    (by norm_num [Vector3f.dot]) (by norm_num [Vector3f.dot])

/-- C3: chaining fluent builder calls equals composing the standalone
transforms in the same order: translate(d).scale(k) is translate(d) @
scale(k) and scale(k).translate(d) is scale(k) @ translate(d); moreover the
product translate(d) @ scale(k) applies the scaling to a point first and
the translation second (the spec's "scale then translate"). -/
theorem C3_chaining :
    (∀ d k : Vector3f,
        (Transform4f.identity.chainTranslate d).chainScale k
          = (Transform4f.translate d).compose (Transform4f.scale k))
    ∧ (∀ k d : Vector3f,
        (Transform4f.identity.chainScale k).chainTranslate d
          = (Transform4f.scale k).compose (Transform4f.translate d))
    ∧ (∀ d k p : Vector3f,
        ((Transform4f.translate d).compose (Transform4f.scale k)).applyPoint p
          = (Transform4f.translate d).applyPoint ((Transform4f.scale k).applyPoint p)) := by
  refine ⟨fun d k => ?_, fun k d => ?_, fun d k p => ?_⟩
  · obtain ⟨dx, dy, dz⟩ := d
    obtain ⟨kx, ky, kz⟩ := k
    simp only [Transform4f.chainTranslate, Transform4f.chainScale, Transform4f.identity,
      Transform4f.compose, Transform4f.translate, Transform4f.scale, Matrix4f.id4,
      Matrix4f.mul, Transform4f.mk.injEq, Matrix4f.mk.injEq]
    repeat' apply And.intro
    all_goals ring
  · obtain ⟨dx, dy, dz⟩ := d
    obtain ⟨kx, ky, kz⟩ := k
    simp only [Transform4f.chainTranslate, Transform4f.chainScale, Transform4f.identity,
      Transform4f.compose, Transform4f.translate, Transform4f.scale, Matrix4f.id4,
      Matrix4f.mul, Transform4f.mk.injEq, Matrix4f.mk.injEq]
    repeat' apply And.intro
    all_goals ring
  · obtain ⟨dx, dy, dz⟩ := d
    obtain ⟨kx, ky, kz⟩ := k
    obtain ⟨px, py, pz⟩ := p
    simp only [Transform4f.applyPoint, Transform4f.compose, Transform4f.translate,
      Transform4f.scale, Matrix4f.mul, Matrix4f.mulVec4, homogPoint, dehomog,
      Vector3f.mk.injEq]
    norm_num

/-- C4: for T = translate([0,1,2]) @ scale([1,2,3]), applying T to the
vector [3,4,5] gives [3,8,15], to the point [3,4,5] gives [3,9,17], and to
the normal [1,0,0] gives [1,0,0]. -/
theorem C4_apply_entities :
    ((Transform4f.translate ⟨0, 1, 2⟩).compose (Transform4f.scale ⟨1, 2, 3⟩)).applyVector
        ⟨3, 4, 5⟩ = ⟨3, 8, 15⟩
    ∧ ((Transform4f.translate ⟨0, 1, 2⟩).compose (Transform4f.scale ⟨1, 2, 3⟩)).applyPoint
        ⟨3, 4, 5⟩ = ⟨3, 9, 17⟩
    ∧ ((Transform4f.translate ⟨0, 1, 2⟩).compose (Transform4f.scale ⟨1, 2, 3⟩)).applyNormal
        ⟨1, 0, 0⟩ = ⟨1, 0, 0⟩ := by
  refine ⟨?_, ?_, ?_⟩ <;>
    norm_num [Transform4f.applyVector, Transform4f.applyPoint, Transform4f.applyNormal,
      Transform4f.compose, Transform4f.translate, Transform4f.scale, Matrix4f.mul,
      Matrix4f.mulVector, Matrix4f.mulVec4, homogPoint, dehomog]

/-- C5: building a Transform3f from any singular matrix does not fail, keeps
the matrix exactly as given and fills the inverse-transpose entirely with
not-a-number sentinels; in particular the row-broadcast constructor on
[3,2,3] yields the singular matrix [[3,3,3],[2,2,2],[3,3,3]] with an
all-NaN inverse-transpose. -/
theorem C5_singular_matrix :
    (∀ m : Matrix3f ℚ, m.det = 0 →
        (Transform3f.fromMatrix m).matrix = m
          ∧ (Transform3f.fromMatrix m).inverse_transpose = nanMatrix3)
    ∧ (Transform3f.fromRow ⟨3, 2, 3⟩).matrix = ⟨3, 3, 3, 2, 2, 2, 3, 3, 3⟩
    ∧ (Transform3f.fromRow ⟨3, 2, 3⟩).inverse_transpose = nanMatrix3 := by
  refine ⟨fun m h => ⟨rfl, by simp [Transform3f.fromMatrix, h]⟩, rfl, ?_⟩
  norm_num [Transform3f.fromRow, Transform3f.fromMatrix, Matrix3f.det]

/-- C5 witness: the general singular case instantiated at the broadcast
matrix [[3,3,3],[2,2,2],[3,3,3]], whose determinant is zero. -/
theorem C5_witness :
    (Transform3f.fromMatrix ⟨3, 3, 3, 2, 2, 2, 3, 3, 3⟩).matrix = ⟨3, 3, 3, 2, 2, 2, 3, 3, 3⟩
      ∧ (Transform3f.fromMatrix ⟨3, 3, 3, 2, 2, 2, 3, 3, 3⟩).inverse_transpose = nanMatrix3 :=
  C5_singular_matrix.1 _ (by norm_num [Matrix3f.det])

/-- C6: composition is associative over application — whenever the inner
transform produces a nonzero homogeneous coordinate, (A @ B) @ p equals
A @ (B @ p) — and (translate([4,0,0]) @ scale(2)) maps the point [1,1,1] to
[6,2,2], the rightmost operand acting first. -/
theorem C6_composition_associativity :
    (∀ (A B : Transform4f) (p : Vector3f),
        (B.matrix.mulVec4 (homogPoint p)).w ≠ 0 →
        (A.compose B).applyPoint p = A.applyPoint (B.applyPoint p))
    ∧ ((Transform4f.translate ⟨4, 0, 0⟩).compose
        (Transform4f.scale ⟨2, 2, 2⟩)).applyPoint ⟨1, 1, 1⟩ = ⟨6, 2, 2⟩ := by
  constructor
  · intro A B p h
    simp only [Transform4f.applyPoint, Transform4f.compose]
    rw [homog_dehomog _ h, Matrix4f.mulVec4_smul,
      dehomog_smul _ _ (one_div_ne_zero h), ← Matrix4f.mulVec4_mul]
  · norm_num [Transform4f.applyPoint, Transform4f.compose, Transform4f.translate,
      Transform4f.scale, Matrix4f.mul, Matrix4f.mulVec4, homogPoint, dehomog]

/-- C6 witness: the associativity law at A = translate([4,0,0]),
B = scale(2) and the point [1,1,1], whose homogeneous coordinate under B
is 1. -/
theorem C6_witness :
    ((Transform4f.translate ⟨4, 0, 0⟩).compose (Transform4f.scale ⟨2, 2, 2⟩)).applyPoint
        ⟨1, 1, 1⟩
      = (Transform4f.translate ⟨4, 0, 0⟩).applyPoint
          ((Transform4f.scale ⟨2, 2, 2⟩).applyPoint ⟨1, 1, 1⟩) :=
  C6_composition_associativity.1 _ _ _
    (by norm_num [Transform4f.scale, Matrix4f.mulVec4, homogPoint])

/-- C7: translate([10,20,30]) produces exactly the recorded matrix and
inverse-transpose, and scale([10,20,30]) produces exactly the recorded
diagonal matrix with the componentwise-reciprocal inverse-transpose, whose
third entry 1/30 is the value printed as 0.0333333 (they differ by less
than one millionth). -/
theorem C7_translate_scale_matrices :
    Transform4f.translate ⟨10, 20, 30⟩
        = ⟨⟨1, 0, 0, 10, 0, 1, 0, 20, 0, 0, 1, 30, 0, 0, 0, 1⟩,
           ⟨1, 0, 0, 0, 0, 1, 0, 0, 0, 0, 1, 0, -10, -20, -30, 1⟩⟩
    ∧ Transform4f.scale ⟨10, 20, 30⟩
        = ⟨⟨10, 0, 0, 0, 0, 20, 0, 0, 0, 0, 30, 0, 0, 0, 0, 1⟩,
           ⟨1/10, 0, 0, 0, 0, 1/20, 0, 0, 0, 0, 1/30, 0, 0, 0, 0, 1⟩⟩
    ∧ |(1 : ℚ)/30 - 333333/10000000| < 1/1000000 := by
  refine ⟨?_, ?_, by rw [abs_lt]; constructor <;> norm_num⟩ <;>
    norm_num [Transform4f.translate, Transform4f.scale]

/-- C8: perspective(fov=90, near=0.1, far=10) — with cot(45°) = 1 — maps
the point (2,-2,2) to exactly (1,-1,95/99), whose depth is the recorded
0.959596 to within one millionth; for any parameters, a point on the near
plane has depth 0, and with a proper frustum (far distinct from near and
from 0) a point on the far plane has depth 1. -/
theorem C8_perspective :
    (Transform4f.perspective 1 (1/10) 10).applyPoint ⟨2, -2, 2⟩ = ⟨1, -1, 95/99⟩
    ∧ |(95 : ℚ)/99 - 959596/1000000| < 1/1000000
    ∧ (∀ ct near far x y : ℚ,
        ((Transform4f.perspective ct near far).applyPoint ⟨x, y, near⟩).z = 0)
    ∧ (∀ ct near far x y : ℚ, far ≠ near → far ≠ 0 →
        ((Transform4f.perspective ct near far).applyPoint ⟨x, y, far⟩).z = 1) := by
  refine ⟨?_, by rw [abs_lt]; constructor <;> norm_num, fun ct near far x y => ?_,
    fun ct near far x y hfn hf => ?_⟩
  · norm_num [Transform4f.perspective, Transform4f.applyPoint, Matrix4f.mulVec4,
      homogPoint, dehomog]
  · simp only [Transform4f.perspective, Transform4f.applyPoint, Matrix4f.mulVec4,
      homogPoint, dehomog]
    rw [div_eq_zero_iff]
    left
    ring
  · simp only [Transform4f.perspective, Transform4f.applyPoint, Matrix4f.mulVec4,
      homogPoint, dehomog]
    rw [div_eq_one_iff_eq (by simpa using hf)]
    have hsub : far - near ≠ 0 := sub_ne_zero.mpr hfn
    field_simp
    ring

/-- C8 witness: the near- and far-plane depth laws at the notebook's
parameters fov=90 (cotangent 1), near=1/10, far=10. -/
theorem C8_witness :
    ((Transform4f.perspective 1 (1/10) 10).applyPoint ⟨3, 4, 1/10⟩).z = 0
      ∧ ((Transform4f.perspective 1 (1/10) 10).applyPoint ⟨3, 4, 10⟩).z = 1 :=
  ⟨C8_perspective.2.2.1 1 (1/10) 10 3 4,
   C8_perspective.2.2.2 1 (1/10) 10 3 4 (by norm_num) (by norm_num)⟩

/-- C9: to_local projects onto the frame's basis, returning the dot
products (v·s, v·t, v·n); for the frame s=[0,0,1], t=[0,1,0], n=[1,0,0]
and the world vector [3,2,1] it returns [1,2,3]. -/
theorem C9_to_local_projection :
    (∀ (F : Frame3f) (v : Vector3f),
        F.to_local v = ⟨v.dot F.s, v.dot F.t, v.dot F.n⟩)
    ∧ (Frame3f.mk ⟨0, 0, 1⟩ ⟨0, 1, 0⟩ ⟨1, 0, 0⟩).to_local ⟨3, 2, 1⟩ = ⟨1, 2, 3⟩ := by
  refine ⟨fun F v => rfl, ?_⟩
  norm_num [Frame3f.to_local, Vector3f.dot]

/-- C10: constructing a frame from the single normal [0,1,0] yields the
tangent [1,0,0] and bitangent [0,0,-1] (the recorded [1,-0,-0] and
[-0,0,-1], with negative floating-point zeros equal to 0), and the
construction is a pure function: equal normals give identical frames. -/
theorem C10_fromNormal_deterministic :
    Frame3f.fromNormal ⟨0, 1, 0⟩ = ⟨⟨1, 0, 0⟩, ⟨0, 0, -1⟩, ⟨0, 1, 0⟩⟩
    ∧ (∀ n1 n2 : Vector3f, n1 = n2 → Frame3f.fromNormal n1 = Frame3f.fromNormal n2) := by
  refine ⟨?_, fun n1 n2 h => by rw [h]⟩
  norm_num [Frame3f.fromNormal, coordinate_system, ratSign, mulSign]

/-- C10 witness: the determinism law instantiated at the normal [0,1,0]. -/
theorem C10_witness :
    Frame3f.fromNormal ⟨0, 1, 0⟩ = Frame3f.fromNormal ⟨0, 1, 0⟩ :=
  C10_fromNormal_deterministic.2 _ _ rfl
